import Mathlib

/-!
Verification of the megagrist data engine against its specification.

This file gives a shallow embedding of the parts of the code base that the
checked properties speak about: the SQL builder (sqlConstruct.ts and
sqlUtil.ts), the query engine and action applier (DataEngine.ts), the wire
codec (StreamingChannel.ts), and the streaming helper and disconnect logic
of the RPC core (StreamingRpcImpl.ts).  Pure functions become Lean
functions; the stateful stream iterator becomes explicit state passing;
fallible code returns Except.  Definitions first, then the theorems.
-/

set_option maxHeartbeats 1000000

deriving instance DecidableEq for Except

/-- Cell values, from DocActions.ts:
number | string | boolean | null | [GristObjCode, ...unknown[]].
Numbers are modelled as integers; the structured variant keeps its code and
an opaque payload of strings. -/
inductive CellVal where
  | num (n : Int)
  | str (s : String)
  | boolean (b : Bool)
  | null
  | obj (code : String) (payload : List String)
  deriving DecidableEq

/-- A word character in the sense of the JS regex class backslash-w:
letters, digits and underscore. -/
def isWordChar (c : Char) : Bool :=
  ('a' ≤ c && c ≤ 'z') || ('A' ≤ c && c ≤ 'Z') || ('0' ≤ c && c ≤ '9') || c = '_'

/-- The test performed by quoteIdent in sqlUtil.ts (the anchored regex of
word characters and dots): the string is nonempty and every character is a
word character or a dot. -/
def identRegexTest (s : String) : Bool :=
  !s.toList.isEmpty && s.toList.all (fun c => isWordChar c || c = '.')

/-- quoteIdent from sqlUtil.ts: validate the identifier against the
anchored regex and wrap it in double quotes; otherwise throw. -/
def quoteIdent (ident : String) : Except String String :=
  if identRegexTest ident then .ok ("\"" ++ ident ++ "\"")
  else .error ("SQL identifier is not valid: " ++ ident)

/-- ParsedPredicateFormula from types.ts: a tagged tuple whose first entry
is the tag string and whose remaining entries are sub-formulas or cell
values (the latter appear as payloads of Const and Name). -/
inductive PFormula where
  | node (tag : String) (args : List PFormula)
  | cellArg (v : CellVal)

/-- BindParams from sqlConstruct.ts: a counter for fresh placeholder names
plus the accumulated named parameters. -/
structure BindParams where
  next : Nat
  params : List (String × CellVal)
  deriving DecidableEq

/-- BindParams.addParam: allocate the next placeholder name, record the
value, and hand back the placeholder text. -/
def BindParams.addParam (bp : BindParams) (v : CellVal) : String × BindParams :=
  let name := "p" ++ toString bp.next
  (":" ++ name, { next := bp.next + 1, params := bp.params ++ [(name, v)] })

/-- The fresh BindParams object (counter starts at 1). -/
def BindParams.initial : BindParams := { next := 1, params := [] }

/-- The arity check done by `combine` in sqlExprFromFilters: a fixed arity
is enforced before the arguments are compiled; a null arity accepts any
argument count. -/
def checkArity (numArgs : Option Nat) (args : List PFormula) : Except String Unit :=
  match numArgs with
  | some k =>
    if args.length ≠ k then
      .error ("Expected " ++ toString k ++ " arguments, but got " ++ toString args.length)
    else .ok ()
  | none => .ok ()

/-- Empty string constant (used as the placeholder the TS destructuring
would read past the end of the compiled-arguments array). -/
def emptyStr : String := ""

/-- The payload of a Const node: the TS code reads the first argument
position and binds it as a parameter value.  A sub-formula in that position
would be bound as-is by the TS code; that unconstrained case is modelled as
a null value. -/
def constArgVal (args : List PFormula) : CellVal :=
  match args with
  | .cellArg v :: _ => v
  | _ => CellVal.null

/-- The payload of a Name node: the TS code reads the first argument
position as a string column id. -/
def nameArgStr (args : List PFormula) : String :=
  match args with
  | .cellArg (.str s) :: _ => s
  | _ => emptyStr

mutual

/-- compileNode from sqlExprFromFilters in sqlConstruct.ts.  The BindParams
value is threaded explicitly; the result is the SQL text fragment.  Each
case mirrors one case of the switch: the arity passed to `combine` is
checked first, the arguments are compiled next, and the fragment is
assembled last, wrapped in parentheses.  A cell value in formula position
falls to the unknown-node error like any unknown tag. -/
def compileNode (np : String) : PFormula → BindParams → Except String (String × BindParams)
  | .cellArg _, _ => .error ("Unknown node type")
  | .node tag args, bp =>
    match tag with
    | "And" => do
      checkArity none args
      let (ps, bp') ← compileArgs np args bp
      .ok ("(" ++ String.intercalate " AND " ps ++ ")", bp')
    | "Or" => do
      checkArity none args
      let (ps, bp') ← compileArgs np args bp
      .ok ("(" ++ String.intercalate " OR " ps ++ ")", bp')
    | "Add" => do
      checkArity none args
      let (ps, bp') ← compileArgs np args bp
      .ok ("(" ++ String.intercalate " + " ps ++ ")", bp')
    | "Sub" => do
      checkArity (some 2) args
      let (ps, bp') ← compileArgs np args bp
      .ok ("(" ++ ps.getD 0 emptyStr ++ " - " ++ ps.getD 1 emptyStr ++ ")", bp')
    | "Mult" => do
      checkArity none args
      let (ps, bp') ← compileArgs np args bp
      .ok ("(" ++ String.intercalate " * " ps ++ ")", bp')
    | "Div" => do
      checkArity (some 2) args
      let (ps, bp') ← compileArgs np args bp
      .ok ("(" ++ ps.getD 0 emptyStr ++ " / " ++ ps.getD 1 emptyStr ++ ")", bp')
    | "Mod" => do
      checkArity (some 2) args
      let (ps, bp') ← compileArgs np args bp
      .ok ("(MOD(" ++ ps.getD 0 emptyStr ++ ", " ++ ps.getD 1 emptyStr ++ "))", bp')
    | "Not" => do
      checkArity (some 1) args
      let (ps, bp') ← compileArgs np args bp
      .ok ("(NOT " ++ ps.getD 0 emptyStr ++ ")", bp')
    | "Eq" => do
      checkArity (some 2) args
      let (ps, bp') ← compileArgs np args bp
      .ok ("(" ++ ps.getD 0 emptyStr ++ " = " ++ ps.getD 1 emptyStr ++ ")", bp')
    | "NotEq" => do
      checkArity (some 2) args
      let (ps, bp') ← compileArgs np args bp
      .ok ("(" ++ ps.getD 0 emptyStr ++ " != " ++ ps.getD 1 emptyStr ++ ")", bp')
    | "Lt" => do
      checkArity (some 2) args
      let (ps, bp') ← compileArgs np args bp
      .ok ("(" ++ ps.getD 0 emptyStr ++ " < " ++ ps.getD 1 emptyStr ++ ")", bp')
    | "LtE" => do
      checkArity (some 2) args
      let (ps, bp') ← compileArgs np args bp
      .ok ("(" ++ ps.getD 0 emptyStr ++ " <= " ++ ps.getD 1 emptyStr ++ ")", bp')
    | "Gt" => do
      checkArity (some 2) args
      let (ps, bp') ← compileArgs np args bp
      .ok ("(" ++ ps.getD 0 emptyStr ++ " > " ++ ps.getD 1 emptyStr ++ ")", bp')
    | "GtE" => do
      checkArity (some 2) args
      let (ps, bp') ← compileArgs np args bp
      .ok ("(" ++ ps.getD 0 emptyStr ++ " >= " ++ ps.getD 1 emptyStr ++ ")", bp')
    | "Is" => do
      checkArity (some 2) args
      let (ps, bp') ← compileArgs np args bp
      .ok ("(" ++ ps.getD 0 emptyStr ++ " IS " ++ ps.getD 1 emptyStr ++ ")", bp')
    | "IsNot" => do
      checkArity (some 2) args
      let (ps, bp') ← compileArgs np args bp
      .ok ("(" ++ ps.getD 0 emptyStr ++ " IS NOT " ++ ps.getD 1 emptyStr ++ ")", bp')
    | "In" => do
      checkArity (some 2) args
      let (ps, bp') ← compileArgs np args bp
      .ok ("(" ++ ps.getD 0 emptyStr ++ " IN " ++ ps.getD 1 emptyStr ++ ")", bp')
    | "NotIn" => do
      checkArity (some 2) args
      let (ps, bp') ← compileArgs np args bp
      .ok ("(" ++ ps.getD 0 emptyStr ++ " NOT IN " ++ ps.getD 1 emptyStr ++ ")", bp')
    | "List" => do
      checkArity none args
      let (ps, bp') ← compileArgs np args bp
      .ok ("(" ++ String.intercalate ", " ps ++ ")", bp')
    | "Const" =>
      let (p, bp') := bp.addParam (constArgVal args)
      .ok (p, bp')
    | "Name" => do
      let q ← quoteIdent (nameArgStr args)
      .ok (np ++ q, bp)
    | "Attr" => .error ("Attr not supported in filters")
    | "Comment" =>
      match args with
      | a :: _ => compileNode np a bp
      | [] => .error ("Unknown node type")
    | _ => .error ("Unknown node type")

/-- Compilation of an argument list, threading BindParams left to right
(the order in which the TS `args.map(compileNode)` binds parameters). -/
def compileArgs (np : String) : List PFormula → BindParams → Except String (List String × BindParams)
  | [], bp => .ok ([], bp)
  | a :: rest, bp => do
    let (s, bp') ← compileNode np a bp
    let (ss, bp'') ← compileArgs np rest bp'
    .ok (s :: ss, bp'')

end

/-- sqlExprFromFilters from sqlConstruct.ts: compile the root node. -/
def sqlExprFromFilters (np : String) (filters : PFormula) (bp : BindParams) :
    Except String (String × BindParams) :=
  compileNode np filters bp

/-- The descending test on a sort column spec from sqlConstruct.ts:
a leading minus marks a descending column (the startsWith test, on the
character list of the spec). -/
def colSpecIsDesc (colSpec : String) : Bool :=
  match colSpec.toList with
  | '-' :: _ => true
  | _ => false

/-- The column id of a sort column spec: the spec without its leading minus
when descending (the slice from index 1, on the character list). -/
def colSpecColId (colSpec : String) : String :=
  if colSpecIsDesc colSpec then String.mk (colSpec.toList.drop 1) else colSpec

/-- The cursor kinds from types.ts. -/
inductive CursorKind where
  | after
  | before
  deriving DecidableEq

/-- The predicate denoted by `compileNode` inside sqlExprFromCursor in
sqlConstruct.ts, evaluated on a row.  The recursion mirrors the generated
SQL: at each index, the strict comparison on that column (reversed for a
descending column), and — only when a further cursor value follows — an
equality branch recursing into the next column; past the last value the
generated text is FALSE.  The row valuation maps a column id to its value;
sort-key values are taken from a linear order (the generated SQL compares
them with the SQL operators for less, greater and equal; NULL handling is
an open TODO in the source). -/
def cursorNodeHolds {α : Type} [LinearOrder α] (row : String → α) :
    List (String × α) → Bool
  | [] => false
  | (colSpec, v) :: rest =>
    let colId := colSpecColId colSpec
    let cmp : Bool :=
      if colSpecIsDesc colSpec then decide (row colId < v) else decide (row colId > v)
    match rest with
    | [] => cmp
    | _ :: _ => cmp || (decide (row colId = v) && cursorNodeHolds row rest)

/-- sqlExprFromCursor from sqlConstruct.ts, as the predicate the generated
SQL denotes on a row.  The guards mirror the source: a missing sort never
has the cursor's length (in JS, undefined is unequal to any number), a sort
of the wrong length throws, and only the after kind is supported.  The
compiled predicate walks the sort columns zipped with the cursor values
(the source indexes two arrays of equal length). -/
def sqlExprFromCursorHolds {α : Type} [LinearOrder α] (sort : Option (List String))
    (cursor : CursorKind × List α) (row : String → α) : Except String Bool :=
  match sort with
  | none => .error ("Cursor must have as many fields as sort columns")
  | some s =>
    if s.length ≠ cursor.2.length then
      .error ("Cursor must have as many fields as sort columns")
    else if cursor.1 ≠ CursorKind.after then
      .error ("Only after cursor is currently supported")
    else
      .ok (cursorNodeHolds row (s.zip cursor.2))

/-- Modelled from the claim's words (claim C2's comparison form): the
lexicographic strictly-after test on a tuple of (descending?, row value,
cursor value) triples, a descending column comparing as strict-less-than,
with equal values recursing into the next triple. -/
def lexStrictAfter {α : Type} [LinearOrder α] : List (Bool × α × α) → Bool
  | [] => false
  | (isDesc, x, v) :: rest =>
    (if isDesc then decide (x < v) else decide (v < x)) ||
      (decide (x = v) && lexStrictAfter rest)

/-- Modelled from the claim's words (claim C2): the row's tuple of sort-key
values plus id is lexicographically strictly after the cursor position's
tuple of values plus the cursor position's id, the id column ascending as
the final tie-breaker. -/
def claimedCursorAfter (sort : List String) (vals : List Int) (row : String → Int)
    (cursorId : Int) : Bool :=
  lexStrictAfter
    (((sort.zip vals).map (fun p => (colSpecIsDesc p.1, row (colSpecColId p.1), p.2)))
      ++ [(false, row "id", cursorId)])

/-- Assignment of a key in a JS string-keyed object, modelled as a function
to Option (absent keys map to none). -/
def setKey (td : String → Option (List CellVal)) (k : String) (v : List CellVal) :
    String → Option (List CellVal) :=
  fun k' => if k' = k then some v else td k'

/-- The column extraction rows.map(r => r[index]) done by fetchQuery in
DataEngine.ts.  A raw statement row has one entry per statement column; an
out-of-range index (impossible for such rows) is mapped to null. -/
def colOfRows (rows : List (List CellVal)) (i : Nat) : List CellVal :=
  rows.map (fun r => r.getD i CellVal.null)

/-- The indexed assignment loop over the statement columns shared by
fetchQuery (over tableData) and by the columnar reading of a streamed
result: for each column name, in order and with its running index, assign
the name to that column's values across the rows. -/
def assignCols (rows : List (List CellVal)) :
    List String → Nat → (String → Option (List CellVal)) → String → Option (List CellVal)
  | [], _, td => td
  | c :: rest, i, td => assignCols rows rest (i + 1) (setKey td c (colOfRows rows i))

/-- fetchQuery's construction of queryResult.tableData in DataEngine.ts:
start from the object with id mapped to the empty list, then assign, for
each statement column (index and name, in statement order), the column name
to that column's values across all fetched rows.  The executed statement is
abstracted as its declared column names plus the raw rows it returned. -/
def fetchQueryTableData (cols : List String) (rows : List (List CellVal)) :
    String → Option (List CellVal) :=
  assignCols rows cols 0 (setKey (fun _ => none) "id" [])

/-- One folding step of the chunk accumulation in generateRows
(fetchQueryStreaming in DataEngine.ts): push the row onto the current
chunk; when the current chunk reaches exactly chunkRows rows, yield it and
start a fresh one. -/
def chunkStep (chunkRows : Nat) (acc : List (List (List CellVal)) × List (List CellVal))
    (row : List CellVal) : List (List (List CellVal)) × List (List CellVal) :=
  let cur := acc.2 ++ [row]
  if cur.length = chunkRows then (acc.1 ++ [cur], []) else (acc.1, cur)

/-- generateRows from fetchQueryStreaming in DataEngine.ts, read to
completion without abort or timeout: the sequence of yielded chunks, i.e.
the rows of the statement cursor accumulated into chunks of chunkRows rows,
with a final partial chunk yielded only when nonempty. -/
def generateRowsChunks (chunkRows : Nat) (rows : List (List CellVal)) :
    List (List (List CellVal)) :=
  let acc := rows.foldl (chunkStep chunkRows) ([], [])
  if acc.2.isEmpty then acc.1 else acc.1 ++ [acc.2]

/-- Modelled from the claim's words (claim C1's comparison form): the
columnar transposition of a row sequence under the returned colIds — each
colId, in order, mapped to its positional values across the rows. -/
def streamTransposed (cols : List String) (rows : List (List CellVal)) :
    String → Option (List CellVal) :=
  assignCols rows cols 0 (fun _ => none)

/-- Doc actions from DocActions.ts (the reduced, bulk-only action set).
Bulk column values are an association list from column id to the cell
values, one entry per row. -/
inductive DocActionM where
  | bulkAddRecord (tableId : String) (rowIds : List Int)
      (colValues : List (String × List CellVal))
  | bulkRemoveRecord (tableId : String) (rowIds : List Int)
  | bulkUpdateRecord (tableId : String) (rowIds : List Int)
      (colValues : List (String × List CellVal))
  | replaceTableData (tableId : String) (rowIds : List Int)
      (colValues : List (String × List CellVal))
  | addColumn (tableId colId : String) (colType : String)
  | removeColumn (tableId colId : String)
  | renameColumn (tableId oldId newId : String)
  | modifyColumn (tableId colId : String) (colType : Option String)
  | addTable (tableId : String) (columns : List (String × String))
  | removeTable (tableId : String)
  | renameTable (oldId newId : String)
  deriving DecidableEq

/-- isDataDocAction from DocActions.ts: the four bulk data actions. -/
def isDataDocAction : DocActionM → Bool
  | .bulkAddRecord _ _ _ => true
  | .bulkRemoveRecord _ _ => true
  | .bulkUpdateRecord _ _ _ => true
  | .replaceTableData _ _ _ => true
  | _ => false

/-- The row-id list of an action (the third tuple entry of a data action;
schema actions have none). -/
def rowIdsOf : DocActionM → List Int
  | .bulkAddRecord _ rowIds _ => rowIds
  | .bulkRemoveRecord _ rowIds => rowIds
  | .bulkUpdateRecord _ rowIds _ => rowIds
  | .replaceTableData _ rowIds _ => rowIds
  | _ => []

/-- Deps.MAX_SMALL_ACTION_ROW_IDS from DataEngine.ts: actions affecting
more than this many rows get stripped. -/
def MAX_SMALL_ACTION_ROW_IDS : Nat := 100

/-- maybeStripAction from DataEngine.ts: a data action whose row-id list is
longer than MAX_SMALL_ACTION_ROW_IDS is replaced by one with an empty
row-id list; for the actions carrying column values, the column keys are
kept, each mapped to an empty list.  Everything else passes unchanged. -/
def maybeStripAction (action : DocActionM) : DocActionM :=
  match action with
  | .bulkAddRecord t rowIds colValues =>
    if rowIds.length > MAX_SMALL_ACTION_ROW_IDS then
      .bulkAddRecord t [] (colValues.map (fun p => (p.1, [])))
    else action
  | .bulkRemoveRecord t rowIds =>
    if rowIds.length > MAX_SMALL_ACTION_ROW_IDS then
      .bulkRemoveRecord t []
    else action
  | .bulkUpdateRecord t rowIds colValues =>
    if rowIds.length > MAX_SMALL_ACTION_ROW_IDS then
      .bulkUpdateRecord t [] (colValues.map (fun p => (p.1, [])))
    else action
  | .replaceTableData t rowIds colValues =>
    if rowIds.length > MAX_SMALL_ACTION_ROW_IDS then
      .replaceTableData t [] (colValues.map (fun p => (p.1, [])))
    else action
  | _ => action

/-- The observable events of one applyActions run, in order. -/
inductive TxnEvent where
  | beginImmediate
  | storeAction (action : DocActionM)
  | emitActionSet (actions : List DocActionM)
  | commit
  deriving DecidableEq

/-- applyActions from DataEngine.ts, as its event trace.  The code runs
db.transaction(fn).immediate(), which issues BEGIN IMMEDIATE, runs fn, and
issues COMMIT when fn returns; fn stores each action of the set in order
through StoreDocAction and then emits the action set — with each action
passed through maybeStripAction — on the engine's action-set emitter.  The
trace is that of a run in which every store succeeds. -/
def applyActionsTrace (actions : List DocActionM) : List TxnEvent :=
  [TxnEvent.beginImmediate] ++ actions.map TxnEvent.storeAction ++
    [TxnEvent.emitActionSet (actions.map maybeStripAction), TxnEvent.commit]

/-- Event classifier: the emit of the action-set notification. -/
def isEmitEvent : TxnEvent → Bool
  | .emitActionSet _ => true
  | _ => false

/-- Event classifier: the transaction commit. -/
def isCommitEvent : TxnEvent → Bool
  | .commit => true
  | _ => false

/-- The action-set notifications delivered to each registered listener by a
trace: grainjs Emitter.emit calls every registered listener exactly once
per emit, so each listener receives exactly this list of payloads. -/
def notificationsOf (tr : List TxnEvent) : List (List DocActionM) :=
  tr.filterMap (fun e =>
    match e with
    | .emitActionSet actions => some actions
    | _ => none)

/-- Message types from StreamingRpc.ts. -/
inductive MsgType where
  | call
  | signal
  | resp
  deriving DecidableEq

/-- IMessage from StreamingRpc.ts.  The opaque data and error payloads are
modelled in their serialized form (a character list); the delegated payload
(de)serialization is the identity on that form, and a present payload is a
nonempty text, as JSON.stringify of any defined value is.  Absent optional
fields are the neutral values false and none. -/
structure IMessageM where
  mtype : MsgType
  reqId : Int
  more : Bool
  abort : Bool
  data : Option (List Char)
  error : Option (List Char)
  deriving DecidableEq

/-- The one-byte type codes of mtypeCodes in StreamingChannel.ts. -/
def mtypeToCode : MsgType → Char
  | .call => 'C'
  | .signal => 'S'
  | .resp => 'R'

/-- The inverse map codeToMtype in StreamingChannel.ts. -/
def codeToMtype (c : Char) : Option MsgType :=
  if c = 'C' then some MsgType.call
  else if c = 'S' then some MsgType.signal
  else if c = 'R' then some MsgType.resp
  else none

/-- Decimal digit characters of a natural number, most significant first,
by repeated division (fuel-based so that it computes by kernel reduction;
the fuel argument bounds the number of divisions and the number itself is
always enough fuel). -/
def natToDecAux : Nat → Nat → List Char
  | 0, _ => []
  | fuel + 1, n => if n = 0 then [] else natToDecAux fuel (n / 10) ++ [Nat.digitChar (n % 10)]

/-- The decimal notation of a natural number, as JS number-to-string
conversion produces for a non-negative integer. -/
def natToDec (n : Nat) : List Char :=
  if n = 0 then ['0'] else natToDecAux n n

/-- The decimal notation of an integer, as JS number-to-string conversion
produces for an integral number. -/
def intToDec (i : Int) : List Char :=
  if i < 0 then '-' :: natToDec i.natAbs else natToDec i.toNat

/-- The numeric value of a digit string, left to right. -/
def decValue (cs : List Char) : Nat :=
  cs.foldl (fun acc c => acc * 10 + (c.toNat - 48)) 0

/-- JS whitespace, as far as parseInt skips it. -/
def isJsSpace (c : Char) : Bool :=
  c = ' ' || c = '\t' || c = '\n' || c = '\r'

/-- The longest digit prefix of a string, as a value; none when the prefix
is empty (parseInt's NaN). -/
def digitsPrefixVal (cs : List Char) : Option Nat :=
  let ds := cs.takeWhile Char.isDigit
  if ds.isEmpty then none else some (decValue ds)

/-- JS parseInt(s, 10): skip leading whitespace, read an optional sign
(the sign character is consumed when present), then the longest prefix of
decimal digits; NaN (none) when that prefix is empty. -/
def parseIntJS (cs : List Char) : Option Int :=
  let t := cs.dropWhile isJsSpace
  if t.head? = some '-' then (digitsPrefixVal (t.drop 1)).map (fun n => -(n : Int))
  else if t.head? = some '+' then (digitsPrefixVal (t.drop 1)).map (fun n => (n : Int))
  else (digitsPrefixVal t).map (fun n => (n : Int))

/-- serializeMessage from StreamingChannel.ts: the one-byte type code, at
most one flag byte (the error flag wins over more, which wins over abort,
and an error payload replaces the data payload), the decimal reqId, and a
colon followed by the serialized payload (empty for an absent payload,
since JSON.stringify(undefined) is undefined and the ?? turns it into the
empty text).  The error payload of a message with the error field set is
an errorToMsg object, hence truthy. -/
def serializeMessage (m : IMessageM) : List Char :=
  let flagData : List Char × Option (List Char) :=
    if m.error.isSome then (['!'], m.error)
    else if m.more then (['+'], m.data)
    else if m.abort then (['#'], m.data)
    else ([], m.data)
  mtypeToCode m.mtype :: flagData.1 ++ intToDec m.reqId ++ ':' :: flagData.2.getD []

/-- The second input character (input[1] in the JS), which is where
parseMessage looks for the optional flag byte. -/
def msgC1 (input : List Char) : Option Char := (input.drop 1).head?

/-- The isError flag of parseMessage: the second character is the error
marker. -/
def msgIsError (input : List Char) : Bool := msgC1 input == some '!'

/-- The more flag of parseMessage: the second character is the more
marker. -/
def msgMore (input : List Char) : Bool := msgC1 input == some '+'

/-- The abort flag of parseMessage: the second character is the abort
marker. -/
def msgAbort (input : List Char) : Bool := msgC1 input == some '#'

/-- reqIdStart of parseMessage: the reqId digits start after the type byte
and after the flag byte when one is present. -/
def msgReqIdStart (input : List Char) : Nat :=
  if msgIsError input || msgMore input || msgAbort input then 2 else 1

/-- dataStart of parseMessage: one past the first colon, or (as the JS
(indexOf + 1) || length evaluates with indexOf -1) the input length when no
colon exists. -/
def msgDataStart (input : List Char) : Nat :=
  match List.findIdx? (fun c => c == ':') input with
  | some i => i + 1
  | none => input.length

/-- The reqId slice of parseMessage: from reqIdStart up to just before the
first colon (or, when no colon exists, up to the last character exclusive,
as the JS slice(reqIdStart, input.length - 1) does). -/
def msgReqIdChars (input : List Char) : List Char :=
  (input.drop (msgReqIdStart input)).take (msgDataStart input - 1 - msgReqIdStart input)

/-- The payload of parseMessage, kept in serialized form (parseData is
delegated): the text after the first colon; an empty text means an absent
payload. -/
def msgData (input : List Char) : Option (List Char) :=
  if (input.drop (msgDataStart input)).isEmpty then none
  else some (input.drop (msgDataStart input))

/-- parseMessage from StreamingChannel.ts, on the character list of the
input.  The reqId slice is read with parseInt, and a falsy result — NaN or
zero — is a decode error.  An error-flagged message carries its payload in
the error field and its more/abort fields are absent (false). -/
def parseMessage (input : List Char) : Except String IMessageM :=
  match input.head? with
  | none => .error ("Invalid input message (mtype)")
  | some c0 =>
    match codeToMtype c0 with
    | none => .error ("Invalid input message (mtype)")
    | some mtype =>
      match parseIntJS (msgReqIdChars input) with
      | none => .error ("Invalid input message (reqId)")
      | some r =>
        if r = 0 then .error ("Invalid input message (reqId)")
        else if msgIsError input then
          .ok { mtype := mtype, reqId := r, more := false, abort := false,
                data := none, error := msgData input }
        else
          .ok { mtype := mtype, reqId := r, more := msgMore input, abort := msgAbort input,
                data := msgData input, error := none }

/-- An item queued inside the StreamingHelper of StreamingRpcImpl.ts: a
chunk iterator result, either a chunk or the done marker that
_finishChunks pushes. -/
inductive ChunkItem (α : Type) where
  | chunkIt (c : α)
  | doneIt
  deriving DecidableEq

/-- The outcome one next() call settles with: a chunk, a done result, or a
rejection with an error. -/
inductive NextRes (α ε : Type) where
  | chunk (c : α)
  | done
  | errRes (e : ε)
  deriving DecidableEq

/-- The stored end value (_endValue): the done result that return() stores,
or the rejection that _supplyError stores. -/
inductive EndVal (ε : Type) where
  | doneEnd
  | errEnd (e : ε)
  deriving DecidableEq

/-- The state of a StreamingHelper from StreamingRpcImpl.ts: the queued
chunk items, the number of pending next() awaiters (_queuedCallbacks), the
results already handed to formerly pending awaiters (in order), the
finished flag, and the stored end value. -/
structure HelperState (α ε : Type) where
  queuedChunks : List (ChunkItem α)
  pendingAwaiters : Nat
  delivered : List (NextRes α ε)
  finished : Bool
  endValue : Option (EndVal ε)
  deriving DecidableEq

/-- A fresh StreamingHelper. -/
def HelperState.init (α ε : Type) : HelperState α ε :=
  { queuedChunks := [], pendingAwaiters := 0, delivered := [], finished := false,
    endValue := none }

/-- The next() result corresponding to a queued item. -/
def resOfItem {α ε : Type} : ChunkItem α → NextRes α ε
  | .chunkIt c => .chunk c
  | .doneIt => .done

/-- _useEndValue: hand out the stored end value once, resetting it; with no
stored end value, a bland done result. -/
def useEndValue {α ε : Type} (s : HelperState α ε) : NextRes α ε × HelperState α ε :=
  match s.endValue with
  | some (.errEnd e) => (.errRes e, { s with endValue := none })
  | some .doneEnd => (.done, { s with endValue := none })
  | none => (.done, s)

/-- _pushItem: hand the item to the first pending awaiter if any, else
queue it. -/
def pushItem {α ε : Type} (it : ChunkItem α) (s : HelperState α ε) : HelperState α ε :=
  if s.pendingAwaiters > 0 then
    { s with pendingAwaiters := s.pendingAwaiters - 1,
             delivered := s.delivered ++ [resOfItem it] }
  else
    { s with queuedChunks := s.queuedChunks ++ [it] }

/-- The loop of _cleanup over _queuedCallbacks: each pending awaiter is
resolved with _useEndValue(), so the first gets the stored end value and
the rest get bland done results. -/
def flushGo {α ε : Type} : Nat → HelperState α ε → HelperState α ε
  | 0, s => s
  | k + 1, s =>
    let (r, s') := useEndValue s
    flushGo k { s' with delivered := s'.delivered ++ [r] }

/-- _cleanup(endValue): set finished, store the end value, resolve every
pending awaiter (queued chunks are deliberately kept for later next()
calls). -/
def cleanupH {α ε : Type} (ev : Option (EndVal ε)) (s : HelperState α ε) : HelperState α ε :=
  let s1 := { s with finished := true, endValue := ev }
  flushGo s1.pendingAwaiters { s1 with pendingAwaiters := 0 }

/-- _supplyChunk: a no-op once finished, else push the chunk. -/
def supplyChunk {α ε : Type} (c : α) (s : HelperState α ε) : HelperState α ε :=
  if s.finished then s else pushItem (.chunkIt c) s

/-- _finishChunks: unless finished, push the done marker as an item and run
_cleanup with no stored end value.  (The _cleanupCallback that removes the
stream-key entry from the RPC core's map is handled at the RPC layer.) -/
def finishChunks {α ε : Type} (s : HelperState α ε) : HelperState α ε :=
  if s.finished then s else cleanupH none (pushItem .doneIt s)

/-- _supplyError: unless finished, run _cleanup with the rejection as the
stored end value. -/
def supplyError {α ε : Type} (e : ε) (s : HelperState α ε) : HelperState α ε :=
  if s.finished then s else cleanupH (some (.errEnd e)) s

/-- next(): deliver the first queued item if any; else, when finished, the
(possibly already consumed) end value; else block, registering an awaiter
(reported as none). -/
def helperNext {α ε : Type} (s : HelperState α ε) : Option (NextRes α ε × HelperState α ε) :=
  match s.queuedChunks with
  | it :: rest => some (resOfItem it, { s with queuedChunks := rest })
  | [] => if s.finished then some (useEndValue s) else none

/-- return(value): when already finished, deliver the pending end value;
else finish with a stored done result, resolve pending awaiters, and
settle with a done result. -/
def helperReturn {α ε : Type} (s : HelperState α ε) : NextRes α ε × HelperState α ε :=
  if s.finished then useEndValue s
  else (.done, cleanupH (some .doneEnd) s)

/-- The results of k successive next() calls from a given state (cut short
if a call would block). -/
def consume {α ε : Type} : Nat → HelperState α ε → List (NextRes α ε)
  | 0, _ => []
  | k + 1, s =>
    match helperNext s with
    | some (r, s') => r :: consume k s'
    | none => []

/-- Supplying a list of chunks in order (the producer side of claim C6's
scenario). -/
def suppliesAll {α ε : Type} (cs : List α) (s : HelperState α ε) : HelperState α ε :=
  cs.foldl (fun st c => supplyChunk c st) s

/-- The connection-level state of StreamingRpcImpl.ts that _onDisconnect
touches: the pending outgoing calls (by reqId) and the open stream
iterators (by stream key). -/
structure RpcStateM (α ε : Type) where
  pendingCalls : List Nat
  pendingStreams : List (String × HelperState α ε)
  deriving DecidableEq

/-- _onDisconnect from StreamingRpcImpl.ts: snapshot the pending calls,
clear the map, and resolve each with a rejection carrying the reason;
snapshot the pending streams, clear the map, and feed the reason to each
helper via _supplyError.  The result is the new connection state, the
rejection handed to each formerly pending call, and the helper objects —
still referenced by their consumers — after the error supply. -/
def onDisconnect {α ε : Type} (reason : ε) (s : RpcStateM α ε) :
    RpcStateM α ε × List (Nat × ε) × List (String × HelperState α ε) :=
  ({ pendingCalls := [], pendingStreams := [] },
   s.pendingCalls.map (fun id => (id, reason)),
   s.pendingStreams.map (fun p => (p.1, supplyError reason p.2)))

/-!
## Theorems

Helper lemmas come first inside each group, then the claim theorems with
their witnesses and counterexamples.
-/

theorem lem_quote_not_mem (s : String) (h : identRegexTest s = true) : '"' ∉ s.toList := by
  intro hmem
  simp only [identRegexTest, Bool.and_eq_true, List.all_eq_true] at h
  have h3 := h.2 _ hmem
  exact absurd h3 (by decide)

/-- C9: quoteIdent returns normally exactly for the inputs matching the
anchored word-or-dot regex (raising an error for all others); on success it
returns the input wrapped in double quotes, and since no accepted input
contains a double-quote character, the result is a single complete quoted
token — its first and last characters are its only double quotes — so an
identifier value cannot alter the structure of the surrounding SQL. -/
theorem claim_C9 (s : String) :
    ((∃ out, quoteIdent s = .ok out) ↔ identRegexTest s = true) ∧
    (∀ out, quoteIdent s = .ok out →
      out = "\"" ++ s ++ "\"" ∧
      out.toList = '"' :: (s.toList ++ ['"']) ∧
      '"' ∉ s.toList ∧
      out.toList.count '"' = 2) := by
  by_cases h : identRegexTest s = true
  · refine ⟨⟨fun _ => h, fun _ => ⟨"\"" ++ s ++ "\"", by simp [quoteIdent, h]⟩⟩, ?_⟩
    intro out hout
    have hout' : out = "\"" ++ s ++ "\"" := by
      simp [quoteIdent, h] at hout
      exact hout.symm
    have hnm : '"' ∉ s.toList := lem_quote_not_mem s h
    have hlist : out.toList = '"' :: (s.toList ++ ['"']) := by
      subst hout'
      simp
    refine ⟨hout', hlist, hnm, ?_⟩
    rw [hlist]
    simp [List.count_cons, List.count_append]
    exact List.count_eq_zero.mpr hnm
  · refine ⟨⟨fun hex => ?_, fun hr => absurd hr h⟩, fun out hout => ?_⟩
    · rcases hex with ⟨out, hout⟩
      simp [quoteIdent, h] at hout
    · simp [quoteIdent, h] at hout

/-- Witness for claim C9 at a concrete identifier. -/
theorem claim_C9_witness :
    quoteIdent "Tbl" = .ok ("\"Tbl\"") ∧ '"' ∉ ("Tbl" : String).toList :=
  ⟨by decide, ((claim_C9 "Tbl").2 ("\"Tbl\"") (by decide)).2.2.1⟩

theorem lem_assignCols_some (rows : List (List CellVal)) :
    ∀ (cols : List String) (i : Nat) (f : String → Option (List CellVal)) (k : String)
      (v : List CellVal),
      assignCols rows cols i f k = some v → f k = some v ∨ v.length = rows.length := by
  intro cols
  induction cols with
  | nil => intro i f k v h; exact Or.inl h
  | cons c rest ih =>
    intro i f k v h
    rcases ih (i + 1) (setKey f c (colOfRows rows i)) k v h with h' | h'
    · by_cases hk : k = c
      · subst hk
        simp [setKey] at h'
        right
        rw [← h']
        simp [colOfRows]
      · left
        simpa [setKey, hk] using h'
    · exact Or.inr h'

theorem lem_assignCols_ne_none (rows : List (List CellVal)) :
    ∀ (cols : List String) (i : Nat) (f : String → Option (List CellVal)) (k : String),
      f k ≠ none → assignCols rows cols i f k ≠ none := by
  intro cols
  induction cols with
  | nil => intro i f k h; exact h
  | cons c rest ih =>
    intro i f k h
    apply ih
    by_cases hk : k = c
    · subst hk; simp [setKey]
    · simpa [setKey, hk] using h

theorem lem_assignCols_untouched (rows : List (List CellVal)) :
    ∀ (cols : List String) (i : Nat) (f : String → Option (List CellVal)) (k : String),
      k ∉ cols → assignCols rows cols i f k = f k := by
  intro cols
  induction cols with
  | nil => intro i f k _; rfl
  | cons c rest ih =>
    intro i f k hk
    have hkc : k ≠ c := fun h => hk (by simp [h])
    have hkr : k ∉ rest := fun h => hk (by simp [h])
    show assignCols rows rest (i + 1) (setKey f c (colOfRows rows i)) k = f k
    rw [ih (i + 1) _ k hkr]
    simp [setKey, hkc]

theorem lem_assignCols_agree (rows : List (List CellVal)) :
    ∀ (cols : List String) (i : Nat) (f g : String → Option (List CellVal)),
      (∀ k, k ≠ "id" → f k = g k) →
      ∀ k, assignCols rows cols i f k = assignCols rows cols i g k ∨
        (k = "id" ∧ "id" ∉ cols ∧ assignCols rows cols i f k = f "id" ∧
          assignCols rows cols i g k = g "id") := by
  intro cols
  induction cols with
  | nil =>
    intro i f g hfg k
    by_cases hk : k = "id"
    · subst hk; exact Or.inr ⟨rfl, by simp, rfl, rfl⟩
    · exact Or.inl (hfg k hk)
  | cons c rest ih =>
    intro i f g hfg k
    have hfg' : ∀ k', k' ≠ "id" →
        setKey f c (colOfRows rows i) k' = setKey g c (colOfRows rows i) k' := by
      intro k' hk'
      by_cases hkc : k' = c
      · simp [setKey, hkc]
      · simp [setKey, hkc, hfg k' hk']
    rcases ih (i + 1) _ _ hfg' k with h | ⟨hk, hmem, hf, hg⟩
    · exact Or.inl h
    · have hidc : c ≠ "id" → ("id" : String) ≠ c := fun h1 h2 => h1 h2.symm
      by_cases hc : c = "id"
      · left
        show assignCols rows rest (i + 1) (setKey f c (colOfRows rows i)) k
          = assignCols rows rest (i + 1) (setKey g c (colOfRows rows i)) k
        rw [hf, hg]
        simp [setKey, hc]
      · right
        refine ⟨hk, ?_, ?_, ?_⟩
        · intro hmem2
          rcases List.mem_cons.mp hmem2 with h2 | h2
          · exact hc h2.symm
          · exact hmem h2
        · show assignCols rows rest (i + 1) (setKey f c (colOfRows rows i)) k = f "id"
          rw [hf]
          simp [setKey, hidc hc]
        · show assignCols rows rest (i + 1) (setKey g c (colOfRows rows i)) k = g "id"
          rw [hg]
          simp [setKey, hidc hc]

/-- C10: the tableData of a successful fetchQuery always contains the key
id; when the executed statement's result columns do not include a column
named id, tableData.id is the empty sequence even if rows were returned,
so column sequences in one result may have differing lengths (every other
present value has exactly one entry per returned row). -/
theorem claim_C10 (cols : List String) (rows : List (List CellVal)) :
    fetchQueryTableData cols rows "id" ≠ none ∧
    ("id" ∉ cols → fetchQueryTableData cols rows "id" = some []) ∧
    (∀ k v, fetchQueryTableData cols rows k = some v →
      v.length = rows.length ∨ (k = "id" ∧ v = [])) := by
  refine ⟨?_, ?_, ?_⟩
  · apply lem_assignCols_ne_none
    simp [setKey]
  · intro hid
    rw [fetchQueryTableData, lem_assignCols_untouched rows cols 0 _ "id" hid]
    simp [setKey]
  · intro k v h
    rcases lem_assignCols_some rows cols 0 _ k v h with h' | h'
    · by_cases hk : k = "id"
      · subst hk
        simp [setKey] at h'
        exact Or.inr ⟨rfl, h'⟩
      · simp [setKey, hk] at h'
    · exact Or.inl h'

/-- Witness for claim C10: a query whose result columns omit id still has
an id key mapped to the empty sequence. -/
theorem claim_C10_witness :
    fetchQueryTableData ["A"] [[CellVal.num 5]] "id" = some [] :=
  (claim_C10 ["A"] [[CellVal.num 5]]).2.1 (by decide)

theorem lem_chunkAcc_inv (n : Nat) (hn : 0 < n) :
    ∀ (rows : List (List CellVal)) (acc : List (List (List CellVal)) × List (List CellVal)),
      (∀ c ∈ acc.1, c.length = n) → acc.2.length < n →
      (∀ c ∈ (rows.foldl (chunkStep n) acc).1, c.length = n) ∧
        (rows.foldl (chunkStep n) acc).2.length < n := by
  intro rows
  induction rows with
  | nil => intro acc h1 h2; exact ⟨h1, h2⟩
  | cons r rest ih =>
    intro acc h1 h2
    rw [List.foldl_cons]
    apply ih
    · intro c hc
      by_cases hfull : (acc.2 ++ [r]).length = n
      · simp only [chunkStep, hfull, if_pos] at hc
        rcases List.mem_append.mp hc with hc' | hc'
        · exact h1 c hc'
        · simp at hc'
          rw [hc']
          exact hfull
      · simp only [chunkStep, if_neg hfull] at hc
        exact h1 c hc
    · by_cases hfull : (acc.2 ++ [r]).length = n
      · simp only [chunkStep, hfull, if_pos]
        simpa using hn
      · simp only [chunkStep, if_neg hfull]
        simp only [List.length_append, List.length_cons, List.length_nil] at hfull ⊢
        omega

theorem lem_chunkAcc_flatten (n : Nat) :
    ∀ (rows : List (List CellVal)) (acc : List (List (List CellVal)) × List (List CellVal)),
      (rows.foldl (chunkStep n) acc).1.flatten ++ (rows.foldl (chunkStep n) acc).2
        = acc.1.flatten ++ acc.2 ++ rows := by
  intro rows
  induction rows with
  | nil => intro acc; simp
  | cons r rest ih =>
    intro acc
    rw [List.foldl_cons, ih]
    by_cases hfull : (acc.2 ++ [r]).length = n
    · simp only [chunkStep, hfull, if_pos]
      simp [List.flatten_append]
    · simp only [chunkStep, if_neg hfull]
      simp

theorem lem_generateRows_flatten (n : Nat) (rows : List (List CellVal)) :
    (generateRowsChunks n rows).flatten = rows := by
  have h := lem_chunkAcc_flatten n rows ([], [])
  simp only [List.flatten_nil, List.nil_append] at h
  unfold generateRowsChunks
  by_cases he : (rows.foldl (chunkStep n) ([], [])).2.isEmpty
  · simp only [he, if_pos]
    rw [List.isEmpty_iff] at he
    rw [he] at h
    simpa using h
  · simp only [he, if_neg, Bool.false_eq_true, not_false_iff, List.flatten_append]
    simpa using h

theorem lem_generateRows_bound (n : Nat) (hn : 0 < n) (rows : List (List CellVal)) :
    ∀ c ∈ generateRowsChunks n rows, c.length ≤ n := by
  have h := lem_chunkAcc_inv n hn rows ([], []) (by simp) (by simpa using hn)
  intro c hc
  unfold generateRowsChunks at hc
  by_cases he : (rows.foldl (chunkStep n) ([], [])).2.isEmpty
  · simp only [he, if_pos] at hc
    exact le_of_eq (h.1 c hc)
  · simp only [he, if_neg, Bool.false_eq_true, not_false_iff] at hc
    rcases List.mem_append.mp hc with hc' | hc'
    · exact le_of_eq (h.1 c hc')
    · simp at hc'
      rw [hc']
      exact le_of_lt h.2

/-- C1 (amended): with positive chunkRows, every chunk yielded by
fetchQueryStreaming's generator has at most chunkRows rows and the
concatenation of the yielded chunks is exactly the statement's row
sequence; the columnar transposition of that concatenation under the
returned colIds agrees with fetchQuery's tableData on every key, except
that when id is not among the statement's result columns the tableData has
an extra id key mapped to the empty sequence which the transposition
lacks. -/
theorem claim_C1 (cols : List String) (rows : List (List CellVal)) (n : Nat) (hn : 0 < n) :
    (∀ c ∈ generateRowsChunks n rows, c.length ≤ n) ∧
    (generateRowsChunks n rows).flatten = rows ∧
    (∀ k, streamTransposed cols ((generateRowsChunks n rows).flatten) k
        = fetchQueryTableData cols rows k ∨
      (k = "id" ∧ "id" ∉ cols ∧
        streamTransposed cols ((generateRowsChunks n rows).flatten) k = none ∧
        fetchQueryTableData cols rows k = some [])) := by
  refine ⟨lem_generateRows_bound n hn rows, lem_generateRows_flatten n rows, ?_⟩
  intro k
  rw [lem_generateRows_flatten n rows]
  have hfg : ∀ k', k' ≠ "id" →
      (fun _ => (none : Option (List CellVal))) k' = setKey (fun _ => none) "id" [] k' := by
    intro k' hk'
    simp [setKey, hk']
  rcases lem_assignCols_agree rows cols 0 _ _ hfg k with h | ⟨hk, hmem, hf, hg⟩
  · exact Or.inl h
  · refine Or.inr ⟨hk, hmem, ?_, ?_⟩
    · exact hf
    · show assignCols rows cols 0 (setKey (fun _ => none) "id" []) k = some []
      rw [hg]
      simp [setKey]

/-- Witness for claim C1 at a concrete statement result and chunk size. -/
theorem claim_C1_witness :
    (0 : Nat) < 2 ∧
      (generateRowsChunks 2 [[CellVal.num 1], [CellVal.num 2], [CellVal.num 3]]).flatten
        = [[CellVal.num 1], [CellVal.num 2], [CellVal.num 3]] :=
  ⟨by decide,
   (claim_C1 ["id"] [[CellVal.num 1], [CellVal.num 2], [CellVal.num 3]] 2 (by decide)).2.1⟩

/-- Counterexample to claim C1 as stated: for a query whose result columns
are just A (id omitted), the transposition of the streamed chunks under the
returned colIds is not equal to fetchQuery's tableData — the latter has an
id key mapped to the empty sequence, the former has no id key at all. -/
theorem claim_C1_counterexample :
    streamTransposed ["A"] ((generateRowsChunks 1 [[CellVal.num 5]]).flatten) "id"
      ≠ fetchQueryTableData ["A"] [[CellVal.num 5]] "id" := by
  decide

theorem lem_cursorNode_eq_lex {α : Type} [LinearOrder α] (row : String → α) :
    ∀ l : List (String × α),
      cursorNodeHolds row l
        = lexStrictAfter (l.map (fun p => (colSpecIsDesc p.1, row (colSpecColId p.1), p.2))) := by
  intro l
  induction l with
  | nil => rfl
  | cons p rest ih =>
    cases rest with
    | nil =>
      simp only [cursorNodeHolds, lexStrictAfter, List.map_cons, List.map_nil]
      cases hd : colSpecIsDesc p.1 <;> simp [hd]
    | cons q rest' =>
      simp only [cursorNodeHolds, lexStrictAfter, List.map_cons] at ih ⊢
      rw [ih]

theorem lem_lex_all_eq {α : Type} [LinearOrder α] :
    ∀ l : List (Bool × α × α), (∀ t ∈ l, t.2.1 = t.2.2) → lexStrictAfter l = false := by
  intro l
  induction l with
  | nil => intro _; rfl
  | cons t rest ih =>
    intro h
    have ht := h t (by simp)
    rcases t with ⟨d, x, v⟩
    simp only at ht
    subst ht
    simp only [lexStrictAfter]
    rw [ih (fun t' ht' => h t' (by simp [ht']))]
    cases d <;> simp [lt_irrefl]

/-- C2 (amended): for a sort of the same length as the cursor values and an
after-cursor, the generated cursor predicate holds of a row exactly when
the row's tuple of sort-key values is lexicographically strictly after the
cursor values over the sort columns alone — a descending column comparing
as strict-less-than — with no id tie-breaker; in particular a row whose
sort-key values all equal the cursor values is excluded regardless of its
id. -/
theorem claim_C2 {α : Type} [LinearOrder α] (s : List String) (vals : List α)
    (row : String → α) (h : s.length = vals.length) :
    sqlExprFromCursorHolds (some s) (CursorKind.after, vals) row
      = .ok (lexStrictAfter ((s.zip vals).map
          (fun p => (colSpecIsDesc p.1, row (colSpecColId p.1), p.2)))) ∧
    ((∀ p ∈ s.zip vals, row (colSpecColId p.1) = p.2) →
      sqlExprFromCursorHolds (some s) (CursorKind.after, vals) row = .ok false) := by
  have hmain : sqlExprFromCursorHolds (some s) (CursorKind.after, vals) row
      = .ok (cursorNodeHolds row (s.zip vals)) := by
    simp only [sqlExprFromCursorHolds]
    rw [if_neg (fun hne => hne h), if_neg (by simp)]
  refine ⟨by rw [hmain, lem_cursorNode_eq_lex], ?_⟩
  intro hall
  rw [hmain, lem_cursorNode_eq_lex]
  congr 1
  apply lem_lex_all_eq
  intro t ht
  rcases List.mem_map.mp ht with ⟨p, hp, hpt⟩
  rw [← hpt]
  exact hall p hp

/-- Witness for claim C2 at a concrete two-column sort (one descending)
and a row whose keys equal the cursor values. -/
theorem claim_C2_witness :
    sqlExprFromCursorHolds (some ["A", "-B"]) (CursorKind.after, [(3 : Int), 4])
      (fun c => if c = "A" then 3 else if c = "B" then 4 else 0) = .ok false :=
  (claim_C2 ["A", "-B"] [(3 : Int), 4]
    (fun c => if c = "A" then 3 else if c = "B" then 4 else 0) (by decide)).2 (by decide)

/-- Counterexample to claim C2 as stated: with sort A and cursor value 5 at
cursor position id 1, a row with A equal to 5 and id 2 is strictly after
the cursor position under the claimed order with id tie-breaker, yet the
generated cursor predicate evaluates to false for it — the code appends no
id tie-breaker to the cursor predicate. -/
theorem claim_C2_counterexample :
    sqlExprFromCursorHolds (some ["A"]) (CursorKind.after, [(5 : Int)])
      (fun c => if c = "A" then 5 else if c = "id" then 2 else 0) = .ok false ∧
    claimedCursorAfter ["A"] [(5 : Int)]
      (fun c => if c = "A" then 5 else if c = "id" then 2 else 0) 1 = true := by
  exact ⟨by decide, by decide⟩

theorem lem_findIdx_append_none (l1 l2 : List TxnEvent) (p : TxnEvent → Bool)
    (h : ∀ x ∈ l1, p x = false) : (l1 ++ l2).findIdx p = l1.length + l2.findIdx p := by
  induction l1 with
  | nil => simp
  | cons a l ih =>
    simp only [List.cons_append, List.findIdx_cons, h a (by simp), cond_false]
    rw [ih (fun x hx => h x (by simp [hx]))]
    simp only [List.length_cons]
    omega

theorem lem_storeActions_no_notif (acts : List DocActionM) :
    notificationsOf (acts.map TxnEvent.storeAction) = [] := by
  induction acts with
  | nil => rfl
  | cons a rest ih =>
    simp only [List.map_cons, notificationsOf, List.filterMap_cons] at ih ⊢
    exact ih

/-- C3 (amended): a successful applyActions run makes each registered
action listener receive exactly one notification, whose payload is the
action set with each data action of more than MAX_SMALL_ACTION_ROW_IDS
rows replaced by its stripped form (empty row-id list, column keys kept and
mapped to empty sequences) and every other action unchanged; the
notification is emitted inside the transaction — after all actions are
stored and before the transaction commits, not after the commit. -/
theorem claim_C3 (actions : List DocActionM) :
    notificationsOf (applyActionsTrace actions) = [actions.map maybeStripAction] ∧
    (applyActionsTrace actions).findIdx isEmitEvent = actions.length + 1 ∧
    (applyActionsTrace actions).findIdx isCommitEvent = actions.length + 2 ∧
    (∀ a, isDataDocAction a = false ∨ (rowIdsOf a).length ≤ MAX_SMALL_ACTION_ROW_IDS →
      maybeStripAction a = a) ∧
    (∀ t ids cvs, ids.length > MAX_SMALL_ACTION_ROW_IDS →
      maybeStripAction (.bulkAddRecord t ids cvs)
          = .bulkAddRecord t [] (cvs.map (fun p => (p.1, []))) ∧
      maybeStripAction (.bulkUpdateRecord t ids cvs)
          = .bulkUpdateRecord t [] (cvs.map (fun p => (p.1, []))) ∧
      maybeStripAction (.replaceTableData t ids cvs)
          = .replaceTableData t [] (cvs.map (fun p => (p.1, [])))) ∧
    (∀ t ids, ids.length > MAX_SMALL_ACTION_ROW_IDS →
      maybeStripAction (.bulkRemoveRecord t ids) = .bulkRemoveRecord t []) := by
  refine ⟨?_, ?_, ?_, ?_, ?_, ?_⟩
  · simp only [applyActionsTrace, notificationsOf, List.filterMap_append]
    have h := lem_storeActions_no_notif actions
    simp only [notificationsOf] at h
    simp [h]
  · have hsh : applyActionsTrace actions
        = (TxnEvent.beginImmediate :: actions.map TxnEvent.storeAction) ++
          [TxnEvent.emitActionSet (actions.map maybeStripAction), TxnEvent.commit] := by
      simp [applyActionsTrace]
    rw [hsh, lem_findIdx_append_none]
    · simp [List.findIdx_cons, isEmitEvent]
    · intro x hx
      rcases List.mem_cons.mp hx with h | h
      · rw [h]; rfl
      · rcases List.mem_map.mp h with ⟨a, _, ha⟩
        rw [← ha]; rfl
  · have hsh : applyActionsTrace actions
        = (TxnEvent.beginImmediate :: actions.map TxnEvent.storeAction ++
          [TxnEvent.emitActionSet (actions.map maybeStripAction)]) ++ [TxnEvent.commit] := by
      simp [applyActionsTrace]
    rw [hsh, lem_findIdx_append_none]
    · simp [List.findIdx_cons, isCommitEvent]
    · intro x hx
      rcases List.mem_cons.mp hx with h | h
      · rw [h]; rfl
      · rcases List.mem_append.mp h with h' | h'
        · rcases List.mem_map.mp h' with ⟨a, _, ha⟩
          rw [← ha]; rfl
        · simp at h'
          rw [h']; rfl
  · intro a h
    cases a <;> simp only [isDataDocAction, rowIdsOf, MAX_SMALL_ACTION_ROW_IDS] at h <;>
      simp only [maybeStripAction] <;>
      first
        | rfl
        | (rw [if_neg]
           rcases h with h | h
           · exact absurd h (by simp)
           · simp only [MAX_SMALL_ACTION_ROW_IDS]
             omega)
  · intro t ids cvs h
    refine ⟨?_, ?_, ?_⟩ <;> simp [maybeStripAction, h]
  · intro t ids h
    simp [maybeStripAction, h]

/-- Witness for claim C3 at a concrete action set containing one large and
one small action. -/
theorem claim_C3_witness :
    maybeStripAction (.bulkRemoveRecord "T" (List.replicate 101 (0 : Int)))
      = DocActionM.bulkRemoveRecord "T" [] :=
  (claim_C3 []).2.2.2.2.2 "T" (List.replicate 101 (0 : Int)) (by decide)

/-- Counterexample to claim C3 as stated: the claim places the notification
after the transaction commits, but in the trace of a concrete applyActions
run the emit event (index 2) precedes the commit event (index 3) — the
emitter fires inside db.transaction's callback, before COMMIT is issued. -/
theorem claim_C3_counterexample :
    (applyActionsTrace [DocActionM.bulkAddRecord "T" [1] [("A", [CellVal.num 5])]]).findIdx
        isEmitEvent = 2 ∧
    (applyActionsTrace [DocActionM.bulkAddRecord "T" [1] [("A", [CellVal.num 5])]]).findIdx
        isCommitEvent = 3 := by
  exact ⟨by decide, by decide⟩

theorem lem_error_bind (e : String) (f : Unit → Except String (String × BindParams)) :
    ((Except.error e : Except String Unit) >>= f) = Except.error e := rfl

/-- C8 (amended): the SQL filter builder raises a builder error whenever a
binary operator (Sub, Div, Mod, Eq, NotEq, Lt, LtE, Gt, GtE, Is, IsNot,
In, NotIn) is applied to a number of arguments other than 2, or Not to
other than 1; the logical and arithmetic operators And, Or, Add, Mult —
like List — accept any number of arguments including zero, for which no
error is raised and the degenerate fragment () is produced. -/
theorem claim_C8 :
    (∀ tag ∈ (["Sub", "Div", "Mod", "Eq", "NotEq", "Lt", "LtE", "Gt", "GtE", "Is",
        "IsNot", "In", "NotIn"] : List String),
      ∀ (np : String) (args : List PFormula) (bp : BindParams), args.length ≠ 2 →
        ∃ msg, sqlExprFromFilters np (.node tag args) bp = .error msg) ∧
    (∀ (np : String) (args : List PFormula) (bp : BindParams), args.length ≠ 1 →
      ∃ msg, sqlExprFromFilters np (.node "Not" args) bp = .error msg) ∧
    (∀ tag ∈ (["And", "Or", "Add", "Mult", "List"] : List String),
      ∀ (np : String) (bp : BindParams),
        ∃ out, sqlExprFromFilters np (.node tag []) bp = .ok out) := by
  have hca2 : ∀ (args : List PFormula), args.length ≠ 2 → checkArity (some 2) args
      = Except.error ("Expected " ++ toString 2 ++ " arguments, but got "
          ++ toString args.length) := by
    intro args hlen
    simp [checkArity, hlen]
  have hca1 : ∀ (args : List PFormula), args.length ≠ 1 → checkArity (some 1) args
      = Except.error ("Expected " ++ toString 1 ++ " arguments, but got "
          ++ toString args.length) := by
    intro args hlen
    simp [checkArity, hlen]
  refine ⟨?_, ?_, ?_⟩
  · intro tag htag np args bp hlen
    fin_cases htag <;>
      exact ⟨_, by rw [sqlExprFromFilters, compileNode, hca2 args hlen, lem_error_bind]⟩
  · intro np args bp hlen
    exact ⟨_, by rw [sqlExprFromFilters, compileNode, hca1 args hlen, lem_error_bind]⟩
  · intro tag htag np bp
    fin_cases htag <;> exact ⟨_, rfl⟩

/-- Witness for claim C8: Sub applied to zero arguments is a builder
error. -/
theorem claim_C8_witness :
    ∃ msg, sqlExprFromFilters emptyStr (.node "Sub" []) BindParams.initial = .error msg :=
  claim_C8.1 "Sub" (by decide) emptyStr [] BindParams.initial (by decide)

/-- Counterexample to claim C8 as stated: And applied to zero arguments
does not raise a builder error — the builder returns the fragment (). -/
theorem claim_C8_counterexample :
    sqlExprFromFilters emptyStr (.node "And" []) BindParams.initial
      = .ok ("()", BindParams.initial) := by
  decide

theorem lem_suppliesAll_state {α ε : Type} (cs : List α) :
    ∀ (q : List (ChunkItem α)) (d : List (NextRes α ε)),
      suppliesAll cs (⟨q, 0, d, false, none⟩ : HelperState α ε)
        = ⟨q ++ cs.map ChunkItem.chunkIt, 0, d, false, none⟩ := by
  induction cs with
  | nil => intro q d; simp [suppliesAll]
  | cons c rest ih =>
    intro q d
    have hstep : supplyChunk c (⟨q, 0, d, false, none⟩ : HelperState α ε)
        = ⟨q ++ [ChunkItem.chunkIt c], 0, d, false, none⟩ := by
      simp [supplyChunk, pushItem]
    simp only [suppliesAll, List.foldl_cons] at ih ⊢
    rw [hstep, ih (q ++ [ChunkItem.chunkIt c]) d]
    simp

theorem lem_consume_done {α ε : Type} :
    ∀ (j : Nat) (a : Nat) (d : List (NextRes α ε)),
      consume j (⟨[], a, d, true, none⟩ : HelperState α ε)
        = List.replicate j NextRes.done := by
  intro j
  induction j with
  | zero => intro a d; rfl
  | succ k ih =>
    intro a d
    simp only [consume, helperNext, useEndValue, if_true]
    rw [ih a d]
    rfl

theorem lem_consume_queue {α ε : Type} :
    ∀ (q : List (ChunkItem α)) (k : Nat) (a : Nat) (d : List (NextRes α ε))
      (ev : Option (EndVal ε)),
      consume (q.length + k) (⟨q, a, d, true, ev⟩ : HelperState α ε)
        = q.map resOfItem ++ consume k (⟨[], a, d, true, ev⟩ : HelperState α ε) := by
  intro q
  induction q with
  | nil => intro k a d ev; simp
  | cons it rest ih =>
    intro k a d ev
    simp only [List.length_cons, List.map_cons]
    have harr : rest.length + 1 + k = (rest.length + k) + 1 := by omega
    rw [harr]
    simp only [consume, helperNext]
    rw [ih k a d ev]
    rfl

theorem lem_consume_err {α ε : Type} (e : ε) (j : Nat) (a : Nat) (d : List (NextRes α ε)) :
    consume (1 + j) (⟨[], a, d, true, some (EndVal.errEnd e)⟩ : HelperState α ε)
      = NextRes.errRes e :: List.replicate j NextRes.done := by
  have harr : 1 + j = j + 1 := by omega
  rw [harr]
  simp only [consume, helperNext, useEndValue, if_true]
  rw [lem_consume_done j a d]

theorem lem_supplyError_consume {α ε : Type} (e : ε) (cs : List α) (j : Nat)
    (d : List (NextRes α ε)) :
    consume (cs.length + 1 + j)
      (supplyError e (⟨cs.map ChunkItem.chunkIt, 0, d, false, none⟩ : HelperState α ε))
      = cs.map NextRes.chunk ++ NextRes.errRes e :: List.replicate j NextRes.done := by
  have hst : supplyError e (⟨cs.map ChunkItem.chunkIt, 0, d, false, none⟩ : HelperState α ε)
      = ⟨cs.map ChunkItem.chunkIt, 0, d, true, some (EndVal.errEnd e)⟩ := by
    simp [supplyError, cleanupH, flushGo]
  rw [hst]
  have hlen : cs.length + 1 + j = (cs.map ChunkItem.chunkIt).length + (1 + j) := by
    simp
    omega
  rw [hlen, lem_consume_queue, lem_consume_err]
  simp only [List.map_map]
  rfl

theorem lem_finishChunks_consume {α ε : Type} (cs : List α) (j : Nat)
    (d : List (NextRes α ε)) :
    consume (cs.length + 1 + j)
      (finishChunks (⟨cs.map ChunkItem.chunkIt, 0, d, false, none⟩ : HelperState α ε))
      = cs.map NextRes.chunk ++ NextRes.done :: List.replicate j NextRes.done := by
  have hst : finishChunks (⟨cs.map ChunkItem.chunkIt, 0, d, false, none⟩ : HelperState α ε)
      = ⟨cs.map ChunkItem.chunkIt ++ [ChunkItem.doneIt], 0, d, true, none⟩ := by
    simp [finishChunks, pushItem, cleanupH, flushGo]
  rw [hst]
  have hlen : cs.length + 1 + j
      = (cs.map ChunkItem.chunkIt ++ [ChunkItem.doneIt]).length + j := by simp
  rw [hlen, lem_consume_queue, lem_consume_done]
  simp only [List.map_append, List.map_map, List.map_cons, List.map_nil]
  simp
  rfl

/-- C6: for any sequence of supplied chunks followed by finishOk
(_finishChunks) or by supplyError, successive next() calls deliver all the
supplied chunks in supply order before the end value, then the end value —
the done result on success, the supplied error on failure — exactly once,
and every further next() call returns the neutral done result. -/
theorem claim_C6 {α ε : Type} (cs : List α) (e : ε) (j : Nat) :
    consume (cs.length + 1 + j) (finishChunks (suppliesAll cs (HelperState.init α ε)))
      = cs.map NextRes.chunk ++ NextRes.done :: List.replicate j NextRes.done ∧
    consume (cs.length + 1 + j) (supplyError e (suppliesAll cs (HelperState.init α ε)))
      = cs.map NextRes.chunk ++ NextRes.errRes e :: List.replicate j NextRes.done := by
  have hinit : suppliesAll cs (HelperState.init α ε)
      = ⟨cs.map ChunkItem.chunkIt, 0, [], false, none⟩ := by
    have h := lem_suppliesAll_state (ε := ε) cs [] []
    simpa [HelperState.init] using h
  rw [hinit]
  exact ⟨lem_finishChunks_consume cs j [], lem_supplyError_consume e cs j []⟩

/-- C7 (amended): when the disconnect signal fires with a reason, every
call pending at that moment is rejected with that reason, every open
stream iterator is fed the reason via supplyError, and both the
pendingCalls and pendingStreams maps are left empty; a consumer of an open
(unfinished) iterator then receives any chunks queued before the
disconnect first, in order, then the reason as the terminal error exactly
once, and neutral done results afterwards. -/
theorem claim_C7 {α ε : Type} (reason : ε) (s : RpcStateM α ε) :
    (onDisconnect reason s).1.pendingCalls = [] ∧
    (onDisconnect reason s).1.pendingStreams = [] ∧
    (onDisconnect reason s).2.1 = s.pendingCalls.map (fun i => (i, reason)) ∧
    (onDisconnect reason s).2.2
      = s.pendingStreams.map (fun p => (p.1, supplyError reason p.2)) ∧
    (∀ (cs : List α) (d : List (NextRes α ε)) (j : Nat),
      consume (cs.length + 1 + j)
        (supplyError reason (⟨cs.map ChunkItem.chunkIt, 0, d, false, none⟩ : HelperState α ε))
        = cs.map NextRes.chunk ++ NextRes.errRes reason :: List.replicate j NextRes.done) :=
  ⟨rfl, rfl, rfl, rfl, fun cs d j => lem_supplyError_consume reason cs j d⟩

/-- Counterexample to claim C7 as stated: a pending stream iterator holding
one chunk queued before the disconnect does not deliver the disconnect
reason on its consumer's next next() call — that call yields the queued
chunk (the reason only follows once the queue is drained). -/
theorem claim_C7_counterexample :
    (helperNext ((((onDisconnect ("closed") (RpcStateM.mk [1]
        [("2:7", supplyChunk (5 : Nat) (HelperState.init Nat String))])).2.2).headD
          (("", HelperState.init Nat String))).2)).map Prod.fst
      = some (NextRes.chunk 5) := by
  decide

theorem lem_digitChar_isDigit (d : Nat) (hd : d < 10) : (Nat.digitChar d).isDigit = true := by
  interval_cases d <;> decide

theorem lem_digitChar_toNat (d : Nat) (hd : d < 10) : (Nat.digitChar d).toNat - 48 = d := by
  interval_cases d <;> decide

theorem lem_natToDecAux_digits :
    ∀ (fuel n : Nat), ∀ c ∈ natToDecAux fuel n, c.isDigit = true := by
  intro fuel
  induction fuel with
  | zero => intro n c hc; simp [natToDecAux] at hc
  | succ f ih =>
    intro n c hc
    by_cases hn : n = 0
    · simp [natToDecAux, hn] at hc
    · simp only [natToDecAux, if_neg hn] at hc
      rcases List.mem_append.mp hc with h | h
      · exact ih _ c h
      · simp at h
        rw [h]
        exact lem_digitChar_isDigit _ (Nat.mod_lt _ (by omega))

theorem lem_natToDec_digits (n : Nat) : ∀ c ∈ natToDec n, c.isDigit = true := by
  intro c hc
  by_cases hn : n = 0
  · simp [natToDec, hn] at hc
    rw [hc]; decide
  · simp only [natToDec, if_neg hn] at hc
    exact lem_natToDecAux_digits n n c hc

theorem lem_natToDec_ne_nil (n : Nat) : natToDec n ≠ [] := by
  by_cases hn : n = 0
  · simp [natToDec, hn]
  · simp only [natToDec, if_neg hn]
    cases hf : n with
    | zero => exact absurd hf hn
    | succ m =>
      simp only [natToDecAux, if_neg hn]
      simp

theorem lem_decValue_aux :
    ∀ (fuel n : Nat), n ≤ fuel → ∀ (a : Nat),
      List.foldl (fun acc c => acc * 10 + (c.toNat - 48)) a (natToDecAux fuel n)
        = a * 10 ^ (natToDecAux fuel n).length + n := by
  intro fuel
  induction fuel with
  | zero =>
    intro n hle a
    have hn : n = 0 := by omega
    simp [natToDecAux, hn]
  | succ f ih =>
    intro n hle a
    by_cases hn : n = 0
    · simp [natToDecAux, hn]
    · simp only [natToDecAux, if_neg hn, List.foldl_append, List.length_append]
      have hd : n / 10 ≤ f := by
        have := Nat.div_lt_self (by omega : 0 < n) (by omega : 1 < 10)
        omega
      rw [ih (n / 10) hd a]
      simp only [List.foldl_cons, List.foldl_nil, List.length_cons, List.length_nil]
      rw [lem_digitChar_toNat _ (Nat.mod_lt _ (by omega))]
      rw [pow_succ, ← mul_assoc]
      generalize a * 10 ^ (natToDecAux f (n / 10)).length = A
      omega

theorem lem_decValue_natToDec (n : Nat) : decValue (natToDec n) = n := by
  by_cases hn : n = 0
  · simp [natToDec, hn, decValue]
  · simp only [natToDec, if_neg hn, decValue]
    have := lem_decValue_aux n n le_rfl 0
    simpa using this

theorem lem_takeWhile_digits :
    ∀ (l : List Char), (∀ c ∈ l, c.isDigit = true) → l.takeWhile Char.isDigit = l := by
  intro l
  induction l with
  | nil => intro _; rfl
  | cons a rest ih =>
    intro h
    rw [List.takeWhile_cons]
    simp only [h a (by simp), if_true]
    rw [ih (fun c hc => h c (by simp [hc]))]

theorem lem_digit_not_space (c : Char) (h : c.isDigit = true) : isJsSpace c = false := by
  have h1 : c ≠ ' ' := by intro hc; rw [hc] at h; exact absurd h (by decide)
  have h2 : c ≠ '\t' := by intro hc; rw [hc] at h; exact absurd h (by decide)
  have h3 : c ≠ '\n' := by intro hc; rw [hc] at h; exact absurd h (by decide)
  have h4 : c ≠ '\r' := by intro hc; rw [hc] at h; exact absurd h (by decide)
  simp [isJsSpace, h1, h2, h3, h4]

theorem lem_digitsPrefixVal_natToDec (n : Nat) : digitsPrefixVal (natToDec n) = some n := by
  unfold digitsPrefixVal
  rw [lem_takeWhile_digits _ (lem_natToDec_digits n)]
  rw [if_neg (by simpa [List.isEmpty_iff] using lem_natToDec_ne_nil n)]
  rw [lem_decValue_natToDec n]

theorem lem_parseIntJS_natToDec (n : Nat) : parseIntJS (natToDec n) = some (n : Int) := by
  have hne := lem_natToDec_ne_nil n
  have hdig := lem_natToDec_digits n
  obtain ⟨c, cs, hcons⟩ := List.exists_cons_of_ne_nil hne
  have hc : c.isDigit = true := hdig c (by rw [hcons]; simp)
  have hdw : (natToDec n).dropWhile isJsSpace = natToDec n := by
    rw [hcons, List.dropWhile_cons]
    simp [lem_digit_not_space c hc]
  unfold parseIntJS
  simp only [hdw]
  have hhead : (natToDec n).head? = some c := by rw [hcons]; rfl
  rw [if_neg (by rw [hhead]; intro h; simp at h; rw [h] at hc; exact absurd hc (by decide)),
    if_neg (by rw [hhead]; intro h; simp at h; rw [h] at hc; exact absurd hc (by decide))]
  rw [lem_digitsPrefixVal_natToDec n]
  rfl

theorem lem_code_roundtrip (mt : MsgType) : codeToMtype (mtypeToCode mt) = some mt := by
  cases mt <;> rfl

theorem lem_code_ne_colon (mt : MsgType) : (mtypeToCode mt == ':') = false := by
  cases mt <;> decide

theorem lem_digit_ne_colon (c : Char) (h : c.isDigit = true) : (c == ':') = false := by
  have h1 : c ≠ ':' := fun hc => absurd h (by rw [hc]; decide)
  simpa using h1

theorem lem_findIdxColon :
    ∀ (pre : List Char) (rest : List Char) (i : Nat),
      (∀ c ∈ pre, (c == ':') = false) →
      List.findIdx? (fun c => c == ':') (pre ++ ':' :: rest) i = some (i + pre.length) := by
  intro pre
  induction pre with
  | nil =>
    intro rest i _
    simp [List.findIdx?_cons]
  | cons a l ih =>
    intro rest i h
    rw [List.cons_append, List.findIdx?_cons, if_neg (by simp [h a (by simp)])]
    rw [ih rest (i + 1) (fun c hc => h c (by simp [hc]))]
    congr 1
    simp
    omega

theorem lem_parse_serialized_noflag (mt : MsgType) (n : Nat) (hn : n ≠ 0) (payload : List Char) :
    parseMessage (mtypeToCode mt :: (natToDec n ++ ':' :: payload))
      = .ok ⟨mt, (n : Int), false, false,
          if payload.isEmpty then none else some payload, none⟩ := by
  obtain ⟨c, cs, hcons⟩ := List.exists_cons_of_ne_nil (lem_natToDec_ne_nil n)
  have hc : c.isDigit = true := lem_natToDec_digits n c (by rw [hcons]; simp)
  have hc1 : c ≠ '!' := fun h => absurd hc (by rw [h]; decide)
  have hc2 : c ≠ '+' := fun h => absurd hc (by rw [h]; decide)
  have hc3 : c ≠ '#' := fun h => absurd hc (by rw [h]; decide)
  have hb1 : (some c == some '!') = false := by simpa using hc1
  have hb2 : (some c == some '+') = false := by simpa using hc2
  have hb3 : (some c == some '#') = false := by simpa using hc3
  have hpre : ∀ ch ∈ (mtypeToCode mt :: natToDec n), (ch == ':') = false := by
    intro ch hch
    rcases List.mem_cons.mp hch with h | h
    · rw [h]; exact lem_code_ne_colon mt
    · exact lem_digit_ne_colon ch (lem_natToDec_digits n ch h)
  have hfind : List.findIdx? (fun ch => ch == ':')
      (mtypeToCode mt :: (natToDec n ++ ':' :: payload))
      = some (0 + (mtypeToCode mt :: natToDec n).length) :=
    lem_findIdxColon (mtypeToCode mt :: natToDec n) payload 0 hpre
  have hdrop1 : (mtypeToCode mt :: (natToDec n ++ ':' :: payload)).drop 1
      = natToDec n ++ ':' :: payload := rfl
  have hhead : (natToDec n ++ ':' :: payload).head? = some c := by
    rw [hcons]; rfl
  have htake : (natToDec n ++ ':' :: payload).take (natToDec n).length = natToDec n :=
    List.take_left _ _
  have hdropG : (mtypeToCode mt :: (natToDec n ++ ':' :: payload)).drop
      ((natToDec n).length + 2) = payload := by
    have hsh : mtypeToCode mt :: (natToDec n ++ ':' :: payload)
        = (mtypeToCode mt :: natToDec n ++ [':']) ++ payload := by
      simp
    have hlen : (natToDec n).length + 2 = (mtypeToCode mt :: natToDec n ++ [':']).length := by
      simp
    rw [hsh, hlen]
    exact List.drop_left _ _
  have hc1v : msgC1 (mtypeToCode mt :: (natToDec n ++ ':' :: payload)) = some c := by
    rw [msgC1, hdrop1, hhead]
  have hie : msgIsError (mtypeToCode mt :: (natToDec n ++ ':' :: payload)) = false := by
    rw [msgIsError, hc1v]; exact hb1
  have hmo : msgMore (mtypeToCode mt :: (natToDec n ++ ':' :: payload)) = false := by
    rw [msgMore, hc1v]; exact hb2
  have hab : msgAbort (mtypeToCode mt :: (natToDec n ++ ':' :: payload)) = false := by
    rw [msgAbort, hc1v]; exact hb3
  have hrs : msgReqIdStart (mtypeToCode mt :: (natToDec n ++ ':' :: payload)) = 1 := by
    rw [msgReqIdStart, hie, hmo, hab]
    rfl
  have hds : msgDataStart (mtypeToCode mt :: (natToDec n ++ ':' :: payload))
      = (natToDec n).length + 2 := by
    rw [msgDataStart, hfind]
    simp
  have hrc : msgReqIdChars (mtypeToCode mt :: (natToDec n ++ ':' :: payload))
      = natToDec n := by
    rw [msgReqIdChars, hrs, hds, hdrop1]
    have harith : (natToDec n).length + 2 - 1 - 1 = (natToDec n).length := by omega
    rw [harith]
    exact htake
  have hdat : msgData (mtypeToCode mt :: (natToDec n ++ ':' :: payload))
      = if payload.isEmpty then none else some payload := by
    rw [msgData, hds, hdropG]
  unfold parseMessage
  simp only [List.head?_cons, lem_code_roundtrip, hrc, lem_parseIntJS_natToDec]
  rw [if_neg (show ¬((n : Int) = 0) by simpa using hn)]
  simp only [hie, hmo, hab, hdat, Bool.false_eq_true, if_false]

theorem lem_parse_serialized_err (mt : MsgType) (n : Nat) (hn : n ≠ 0)
    (payload : List Char) :
    parseMessage (mtypeToCode mt :: '!' :: (natToDec n ++ ':' :: payload))
      = Except.ok ⟨mt, (n : Int), false, false, none,
          if payload.isEmpty then none else some payload⟩ := by
  have hpre : ∀ ch ∈ (mtypeToCode mt :: '!' :: natToDec n), (ch == ':') = false := by
    intro ch hch
    rcases List.mem_cons.mp hch with h | h
    · rw [h]; exact lem_code_ne_colon mt
    · rcases List.mem_cons.mp h with h2 | h2
      · rw [h2]; decide
      · exact lem_digit_ne_colon ch (lem_natToDec_digits n ch h2)
  have hfind : List.findIdx? (fun ch => ch == ':')
      (mtypeToCode mt :: '!' :: (natToDec n ++ ':' :: payload))
      = some (0 + (mtypeToCode mt :: '!' :: natToDec n).length) :=
    lem_findIdxColon (mtypeToCode mt :: '!' :: natToDec n) payload 0 hpre
  have hdrop2 : (mtypeToCode mt :: '!' :: (natToDec n ++ ':' :: payload)).drop 2
      = natToDec n ++ ':' :: payload := rfl
  have htake : (natToDec n ++ ':' :: payload).take (natToDec n).length = natToDec n :=
    List.take_left _ _
  have hdropG : (mtypeToCode mt :: '!' :: (natToDec n ++ ':' :: payload)).drop
      ((natToDec n).length + 3) = payload := by
    have hsh : mtypeToCode mt :: '!' :: (natToDec n ++ ':' :: payload)
        = (mtypeToCode mt :: '!' :: natToDec n ++ [':']) ++ payload := by
      simp
    have hlen : (natToDec n).length + 3
        = (mtypeToCode mt :: '!' :: natToDec n ++ [':']).length := by
      simp
    rw [hsh, hlen]
    exact List.drop_left _ _
  have hc1v : msgC1 (mtypeToCode mt :: '!' :: (natToDec n ++ ':' :: payload))
      = some '!' := rfl
  have hie : msgIsError (mtypeToCode mt :: '!' :: (natToDec n ++ ':' :: payload)) = true := by
    rw [msgIsError, hc1v]; rfl
  have hmo : msgMore (mtypeToCode mt :: '!' :: (natToDec n ++ ':' :: payload)) = false := by
    rw [msgMore, hc1v]; rfl
  have hab : msgAbort (mtypeToCode mt :: '!' :: (natToDec n ++ ':' :: payload)) = false := by
    rw [msgAbort, hc1v]; rfl
  have hrs : msgReqIdStart (mtypeToCode mt :: '!' :: (natToDec n ++ ':' :: payload)) = 2 := by
    rw [msgReqIdStart, hie, hmo, hab]
    rfl
  have hds : msgDataStart (mtypeToCode mt :: '!' :: (natToDec n ++ ':' :: payload))
      = (natToDec n).length + 3 := by
    rw [msgDataStart, hfind]
    simp
  have hrc : msgReqIdChars (mtypeToCode mt :: '!' :: (natToDec n ++ ':' :: payload))
      = natToDec n := by
    rw [msgReqIdChars, hrs, hds, hdrop2]
    have harith : (natToDec n).length + 3 - 1 - 2 = (natToDec n).length := by omega
    rw [harith]
    exact htake
  have hdat : msgData (mtypeToCode mt :: '!' :: (natToDec n ++ ':' :: payload))
      = if payload.isEmpty then none else some payload := by
    rw [msgData, hds, hdropG]
  unfold parseMessage
  simp only [List.head?_cons, lem_code_roundtrip, hrc, lem_parseIntJS_natToDec]
  rw [if_neg (show ¬((n : Int) = 0) by simpa using hn)]
  simp only [hie, hmo, hab, hdat, Bool.false_eq_true, Bool.true_eq_false, if_false, if_true]

theorem lem_parse_serialized_more (mt : MsgType) (n : Nat) (hn : n ≠ 0)
    (payload : List Char) :
    parseMessage (mtypeToCode mt :: '+' :: (natToDec n ++ ':' :: payload))
      = Except.ok ⟨mt, (n : Int), true, false,
          if payload.isEmpty then none else some payload, none⟩ := by
  have hpre : ∀ ch ∈ (mtypeToCode mt :: '+' :: natToDec n), (ch == ':') = false := by
    intro ch hch
    rcases List.mem_cons.mp hch with h | h
    · rw [h]; exact lem_code_ne_colon mt
    · rcases List.mem_cons.mp h with h2 | h2
      · rw [h2]; decide
      · exact lem_digit_ne_colon ch (lem_natToDec_digits n ch h2)
  have hfind : List.findIdx? (fun ch => ch == ':')
      (mtypeToCode mt :: '+' :: (natToDec n ++ ':' :: payload))
      = some (0 + (mtypeToCode mt :: '+' :: natToDec n).length) :=
    lem_findIdxColon (mtypeToCode mt :: '+' :: natToDec n) payload 0 hpre
  have hdrop2 : (mtypeToCode mt :: '+' :: (natToDec n ++ ':' :: payload)).drop 2
      = natToDec n ++ ':' :: payload := rfl
  have htake : (natToDec n ++ ':' :: payload).take (natToDec n).length = natToDec n :=
    List.take_left _ _
  have hdropG : (mtypeToCode mt :: '+' :: (natToDec n ++ ':' :: payload)).drop
      ((natToDec n).length + 3) = payload := by
    have hsh : mtypeToCode mt :: '+' :: (natToDec n ++ ':' :: payload)
        = (mtypeToCode mt :: '+' :: natToDec n ++ [':']) ++ payload := by
      simp
    have hlen : (natToDec n).length + 3
        = (mtypeToCode mt :: '+' :: natToDec n ++ [':']).length := by
      simp
    rw [hsh, hlen]
    exact List.drop_left _ _
  have hc1v : msgC1 (mtypeToCode mt :: '+' :: (natToDec n ++ ':' :: payload))
      = some '+' := rfl
  have hie : msgIsError (mtypeToCode mt :: '+' :: (natToDec n ++ ':' :: payload)) = false := by
    rw [msgIsError, hc1v]; rfl
  have hmo : msgMore (mtypeToCode mt :: '+' :: (natToDec n ++ ':' :: payload)) = true := by
    rw [msgMore, hc1v]; rfl
  have hab : msgAbort (mtypeToCode mt :: '+' :: (natToDec n ++ ':' :: payload)) = false := by
    rw [msgAbort, hc1v]; rfl
  have hrs : msgReqIdStart (mtypeToCode mt :: '+' :: (natToDec n ++ ':' :: payload)) = 2 := by
    rw [msgReqIdStart, hie, hmo, hab]
    rfl
  have hds : msgDataStart (mtypeToCode mt :: '+' :: (natToDec n ++ ':' :: payload))
      = (natToDec n).length + 3 := by
    rw [msgDataStart, hfind]
    simp
  have hrc : msgReqIdChars (mtypeToCode mt :: '+' :: (natToDec n ++ ':' :: payload))
      = natToDec n := by
    rw [msgReqIdChars, hrs, hds, hdrop2]
    have harith : (natToDec n).length + 3 - 1 - 2 = (natToDec n).length := by omega
    rw [harith]
    exact htake
  have hdat : msgData (mtypeToCode mt :: '+' :: (natToDec n ++ ':' :: payload))
      = if payload.isEmpty then none else some payload := by
    rw [msgData, hds, hdropG]
  unfold parseMessage
  simp only [List.head?_cons, lem_code_roundtrip, hrc, lem_parseIntJS_natToDec]
  rw [if_neg (show ¬((n : Int) = 0) by simpa using hn)]
  simp only [hie, hmo, hab, hdat, Bool.false_eq_true, Bool.true_eq_false, if_false, if_true]

theorem lem_parse_serialized_abort (mt : MsgType) (n : Nat) (hn : n ≠ 0)
    (payload : List Char) :
    parseMessage (mtypeToCode mt :: '#' :: (natToDec n ++ ':' :: payload))
      = Except.ok ⟨mt, (n : Int), false, true,
          if payload.isEmpty then none else some payload, none⟩ := by
  have hpre : ∀ ch ∈ (mtypeToCode mt :: '#' :: natToDec n), (ch == ':') = false := by
    intro ch hch
    rcases List.mem_cons.mp hch with h | h
    · rw [h]; exact lem_code_ne_colon mt
    · rcases List.mem_cons.mp h with h2 | h2
      · rw [h2]; decide
      · exact lem_digit_ne_colon ch (lem_natToDec_digits n ch h2)
  have hfind : List.findIdx? (fun ch => ch == ':')
      (mtypeToCode mt :: '#' :: (natToDec n ++ ':' :: payload))
      = some (0 + (mtypeToCode mt :: '#' :: natToDec n).length) :=
    lem_findIdxColon (mtypeToCode mt :: '#' :: natToDec n) payload 0 hpre
  have hdrop2 : (mtypeToCode mt :: '#' :: (natToDec n ++ ':' :: payload)).drop 2
      = natToDec n ++ ':' :: payload := rfl
  have htake : (natToDec n ++ ':' :: payload).take (natToDec n).length = natToDec n :=
    List.take_left _ _
  have hdropG : (mtypeToCode mt :: '#' :: (natToDec n ++ ':' :: payload)).drop
      ((natToDec n).length + 3) = payload := by
    have hsh : mtypeToCode mt :: '#' :: (natToDec n ++ ':' :: payload)
        = (mtypeToCode mt :: '#' :: natToDec n ++ [':']) ++ payload := by
      simp
    have hlen : (natToDec n).length + 3
        = (mtypeToCode mt :: '#' :: natToDec n ++ [':']).length := by
      simp
    rw [hsh, hlen]
    exact List.drop_left _ _
  have hc1v : msgC1 (mtypeToCode mt :: '#' :: (natToDec n ++ ':' :: payload))
      = some '#' := rfl
  have hie : msgIsError (mtypeToCode mt :: '#' :: (natToDec n ++ ':' :: payload)) = false := by
    rw [msgIsError, hc1v]; rfl
  have hmo : msgMore (mtypeToCode mt :: '#' :: (natToDec n ++ ':' :: payload)) = false := by
    rw [msgMore, hc1v]; rfl
  have hab : msgAbort (mtypeToCode mt :: '#' :: (natToDec n ++ ':' :: payload)) = true := by
    rw [msgAbort, hc1v]; rfl
  have hrs : msgReqIdStart (mtypeToCode mt :: '#' :: (natToDec n ++ ':' :: payload)) = 2 := by
    rw [msgReqIdStart, hie, hmo, hab]
    rfl
  have hds : msgDataStart (mtypeToCode mt :: '#' :: (natToDec n ++ ':' :: payload))
      = (natToDec n).length + 3 := by
    rw [msgDataStart, hfind]
    simp
  have hrc : msgReqIdChars (mtypeToCode mt :: '#' :: (natToDec n ++ ':' :: payload))
      = natToDec n := by
    rw [msgReqIdChars, hrs, hds, hdrop2]
    have harith : (natToDec n).length + 3 - 1 - 2 = (natToDec n).length := by omega
    rw [harith]
    exact htake
  have hdat : msgData (mtypeToCode mt :: '#' :: (natToDec n ++ ':' :: payload))
      = if payload.isEmpty then none else some payload := by
    rw [msgData, hds, hdropG]
  unfold parseMessage
  simp only [List.head?_cons, lem_code_roundtrip, hrc, lem_parseIntJS_natToDec]
  rw [if_neg (show ¬((n : Int) = 0) by simpa using hn)]
  simp only [hie, hmo, hab, hdat, Bool.false_eq_true, Bool.true_eq_false, if_false, if_true]

theorem lem_payload_opt (da : Option (List Char)) (hdne : da ≠ some []) :
    (if (da.getD []).isEmpty = true then none else some (da.getD [])) = da := by
  cases da with
  | none => rfl
  | some ds =>
    have hne : ds ≠ [] := fun h => hdne (by rw [h])
    simp [hne]

/-- C4 (amended): decoding the encoding of a message returns the message
itself — modulo the delegated payload serialization, modelled as the
identity on nonempty serialized payload text — for every well-formed
message (positive reqId, at most one of more/abort set, at most one of
data/error present) that additionally carries no more/abort flag together
with an error payload: the wire format has a single flag slot and the
error flag claims it, so those flags cannot survive a round trip. -/
theorem claim_C4 (m : IMessageM)
    (hid : 1 ≤ m.reqId)
    (hflags : ¬(m.more = true ∧ m.abort = true))
    (herr : m.error.isSome = true → m.more = false ∧ m.abort = false)
    (hexcl : m.data.isSome = true → m.error = none)
    (hdne : m.data ≠ some [])
    (hene : m.error ≠ some []) :
    parseMessage (serializeMessage m) = .ok m := by
  obtain ⟨mt, r, mo, ab, da, er⟩ := m
  simp only at hid hflags herr hexcl hdne hene
  have hrneg : ¬(r < 0) := by omega
  have hr0 : r.toNat ≠ 0 := by omega
  have hrr : ((r.toNat : Nat) : Int) = r := Int.toNat_of_nonneg (by omega)
  cases er with
  | some es =>
    have hmo : mo = false := (herr (by simp)).1
    have hab : ab = false := (herr (by simp)).2
    have hda : da = none := by
      cases da with
      | none => rfl
      | some ds => exact absurd (hexcl (by simp)) (by simp)
    subst hmo hab hda
    have hser : serializeMessage ⟨mt, r, false, false, none, some es⟩
        = mtypeToCode mt :: '!' :: (natToDec r.toNat ++ ':' :: es) := by
      simp [serializeMessage, intToDec, hrneg]
    rw [hser, lem_parse_serialized_err mt r.toNat hr0 es]
    have hesne : es ≠ [] := fun h => hene (by rw [h])
    have hes : es.isEmpty = false := by
      cases hh : es.isEmpty
      · rfl
      · exact absurd (List.isEmpty_iff.mp hh) hesne
    simp [hes, hrr]
  | none =>
    cases mo with
    | true =>
      cases ab with
      | true => exact absurd ⟨rfl, rfl⟩ hflags
      | false =>
        have hser : serializeMessage ⟨mt, r, true, false, da, none⟩
            = mtypeToCode mt :: '+' :: (natToDec r.toNat ++ ':' :: da.getD []) := by
          simp [serializeMessage, intToDec, hrneg]
        rw [hser, lem_parse_serialized_more mt r.toNat hr0 (da.getD [])]
        simp only [hrr]
        rw [lem_payload_opt da hdne]
    | false =>
      cases ab with
      | true =>
        have hser : serializeMessage ⟨mt, r, false, true, da, none⟩
            = mtypeToCode mt :: '#' :: (natToDec r.toNat ++ ':' :: da.getD []) := by
          simp [serializeMessage, intToDec, hrneg]
        rw [hser, lem_parse_serialized_abort mt r.toNat hr0 (da.getD [])]
        simp only [hrr]
        rw [lem_payload_opt da hdne]
      | false =>
        have hser : serializeMessage ⟨mt, r, false, false, da, none⟩
            = mtypeToCode mt :: (natToDec r.toNat ++ ':' :: da.getD []) := by
          simp [serializeMessage, intToDec, hrneg]
        rw [hser, lem_parse_serialized_noflag mt r.toNat hr0 (da.getD [])]
        simp only [hrr]
        rw [lem_payload_opt da hdne]

/-- C5 (amended): the decoder rejects a reqId that parses to zero (or does
not parse at all), so it never returns a message with reqId equal to 0; a
negative reqId, however, is accepted and returned as parsed. -/
theorem claim_C5 (input : List Char) (m : IMessageM)
    (h : parseMessage input = .ok m) : m.reqId ≠ 0 := by
  unfold parseMessage at h
  repeat' split at h
  all_goals first
    | (have hm := Except.ok.inj h
       subst hm
       assumption)
    | exact absurd h (by simp)

theorem claim_C5_witness :
    ({ mtype := MsgType.call, reqId := 7, more := false, abort := false,
        data := some ['a'], error := none } : IMessageM).reqId ≠ 0 :=
  claim_C5 ['C', '7', ':', 'a'] _ (by decide)

/-- Counterexample to claim C5 as stated: the input C-5:x has a reqId field
that parses to the negative integer -5, yet the decoder does not raise — it
returns a message with reqId -5 (the falsy-check only rejects 0 and NaN). -/
theorem claim_C5_counterexample :
    parseMessage ['C', '-', '5', ':', 'x']
      = .ok ⟨MsgType.call, -5, false, false, some ['x'], none⟩ := by
  decide

theorem claim_C4_witness :
    parseMessage (serializeMessage ⟨MsgType.resp, 12, false, false, some ['x'], none⟩)
      = .ok ⟨MsgType.resp, 12, false, false, some ['x'], none⟩ :=
  claim_C4 ⟨MsgType.resp, 12, false, false, some ['x'], none⟩ (by decide) (by decide)
    (by decide) (by decide) (by decide) (by decide)

/-- Counterexample to claim C4 as stated: the message with mtype Call,
reqId 1, the more flag set and an error payload is well-formed in the
claim's sense (positive reqId, at most one of more/abort set, at most one
of data/error meaningful), yet its round trip loses the more flag: the
wire format has a single flag slot and the error marker claims it. -/
theorem claim_C4_counterexample :
    parseMessage (serializeMessage ⟨MsgType.call, 1, true, false, none, some ['e']⟩)
      ≠ .ok ⟨MsgType.call, 1, true, false, none, some ['e']⟩ := by
  decide
